import Mathlib

/-!
Verification of the zerobrew installer core against its specification.

The Rust sources under `zb_io` (download, materialize) and `zb_cli`
(formula-name normalization, the run helper) are embedded shallowly:
pure functions become Lean functions, filesystem and network effects
become explicit state passing, and the concurrent batch downloader
becomes a small-step transition system over an explicit scheduler.

Components of the repository that are referenced but whose sources are
not available (the blob cache, the error type from `zb_core`, the
installer) are modelled from the specification text, and each such
definition says so in its doc comment.
-/

namespace Zb

/-- Modelled from the spec: the `zb_core::Error` taxonomy of §7, whose
source crate is not available.  Field names follow the spec. -/
inductive Error where
  | MissingFormula (name : String)
  | UnsupportedTap (name : String)
  | NoBottleForPlatform (name platform : String)
  | NetworkFailure (message : String)
  | ChecksumMismatch (expected actual : String)
  | DependencyCycle (path : List String)
  | StoreCorruption (message : String)
  | NotInstalled (name : String)
  | ExecutionError (message : String)
deriving DecidableEq, Repr

deriving instance DecidableEq for Except

/-- Modelled from the spec: the rendering used by `e.to_string()` on
`zb_core::Error` (its `Display` impl is not in the sources).  Only the
fact that it is a function of the error is used by the claims. -/
def errorMessage : Error → String
  | .MissingFormula name => "formula not found: " ++ name
  | .UnsupportedTap name => "unsupported tap: " ++ name
  | .NoBottleForPlatform name platform =>
      "no bottle for platform " ++ platform ++ ": " ++ name
  | .NetworkFailure message => "network failure: " ++ message
  | .ChecksumMismatch expected actual =>
      "checksum mismatch: expected " ++ expected ++ ", got " ++ actual
  | .DependencyCycle path => "dependency cycle: " ++ String.intercalate " -> " path
  | .StoreCorruption message => "store corruption: " ++ message
  | .NotInstalled name => "not installed: " ++ name
  | .ExecutionError message => "execution error: " ++ message

/-- Modelled from the spec: the observable state of the blob cache (§4.1,
`zb_io/src/blob.rs` is not in the sources).  `blobs` is the set of digests
with a committed file at `cache/blobs/<digest>.tar.gz`; `parts` is the set
of digests with an in-progress file at `cache/tmp/<digest>.part`. -/
structure CacheState where
  blobs : List String
  parts : List String
deriving DecidableEq, Repr

/-- The canonical blob path for a digest, computed from the digest only
(spec §4.1, and the paths checked in `download.rs` tests). -/
def blobPath (digest : String) : String :=
  "cache/blobs/" ++ digest ++ ".tar.gz"

/-- The outcome of one HTTP GET as the downloader observes it: a transport
error, or a reply with a status code and a body (a byte sequence). -/
inductive HttpReply where
  | transportError (message : String)
  | reply (status : Nat) (body : List Nat)

/-- The part of `Downloader::download` (`zb_io/src/download.rs:31-77`) that
runs after the GET has been issued: status check, `start_write` (modelled
from spec §4.1/§5: open-create-exclusive on the `.part` file, so a
pre-existing part fails the writer), streaming into hash and writer, the
digest comparison, and commit or drop.  The `.part` file is created and
then either renamed to the blob (on commit) or removed (on drop), so
`parts` is unchanged in every branch; `blobs` gains the digest only on
commit.  `hash` abstracts SHA-256: the control flow never inspects it. -/
def finishDownload (hash : List Nat → String) (net : String → HttpReply)
    (cache : CacheState) (url expected : String) :
    Except Error String × CacheState :=
  match net url with
  | .transportError m => (.error (.NetworkFailure m), cache)
  | .reply status body =>
    if status < 200 ∨ 300 ≤ status then
      (.error (.NetworkFailure ("HTTP " ++ toString status)), cache)
    else if cache.parts.contains expected then
      (.error (.NetworkFailure "failed to create blob writer: AlreadyInFlight"),
       cache)
    else if hash body ≠ expected then
      (.error (.ChecksumMismatch expected (hash body)), cache)
    else
      (.ok (blobPath expected), { cache with blobs := expected :: cache.blobs })

/-- The result of `Downloader::download`: the returned value, the blob
cache afterwards, and how many network GETs were issued by the call. -/
structure DownloadOutcome where
  result : Except Error String
  cache : CacheState
  getsIssued : Nat
deriving Repr

/-- The function `Downloader::download` (`zb_io/src/download.rs:26-77`): return the
cached blob path without touching the network when the digest is already
present, otherwise issue one GET and run `finishDownload`. -/
def Downloader.download (hash : List Nat → String) (net : String → HttpReply)
    (cache : CacheState) (url expected : String) : DownloadOutcome :=
  if cache.blobs.contains expected then
    ⟨.ok (blobPath expected), cache, 0⟩
  else
    let rc := finishDownload hash net cache url expected
    ⟨rc.1, rc.2, 1⟩

/-- C1: a download whose body hashes to something other than the expected
digest returns `ChecksumMismatch {expected, actual}`, commits nothing, and
leaves neither `cache/blobs/<d>.tar.gz` nor `cache/tmp/<d>.part` behind. -/
theorem download_checksum_mismatch (hash : List Nat → String)
    (net : String → HttpReply) (cache : CacheState) (url d : String)
    (status : Nat) (body : List Nat)
    (hblob : d ∉ cache.blobs)
    (hpart : d ∉ cache.parts)
    (hnet : net url = .reply status body)
    (hstatus : 200 ≤ status ∧ status < 300)
    (hmismatch : hash body ≠ d) :
    Downloader.download hash net cache url d =
      ⟨.error (.ChecksumMismatch d (hash body)), cache, 1⟩ ∧
    d ∉ (Downloader.download hash net cache url d).cache.blobs ∧
    d ∉ (Downloader.download hash net cache url d).cache.parts := by
  have hs : ¬ (status < 200 ∨ 300 ≤ status) := by omega
  simp [Downloader.download, finishDownload, hblob, hpart, hnet, hs, hmismatch]

theorem download_checksum_mismatch_witness :
    Downloader.download (fun _ => "00") (fun _ => .reply 200 [1, 2]) ⟨[], []⟩
        "http://example/bottle" "ff" =
      ⟨.error (.ChecksumMismatch "ff" "00"), ⟨[], []⟩, 1⟩ := by
  exact (download_checksum_mismatch (fun _ => "00") (fun _ => .reply 200 [1, 2])
    ⟨[], []⟩ "http://example/bottle" "ff" 200 [1, 2]
    (by decide) (by decide) rfl (by omega) (by decide)).1

/-- C7: when the blob cache already holds the digest, `download` returns
the canonical blob path, leaves the cache unchanged, and issues no
network request. -/
theorem download_cached_no_network (hash : List Nat → String)
    (net : String → HttpReply) (cache : CacheState) (url d : String)
    (hblob : d ∈ cache.blobs) :
    Downloader.download hash net cache url d = ⟨.ok (blobPath d), cache, 0⟩ := by
  simp [Downloader.download, hblob]

theorem download_cached_no_network_witness :
    Downloader.download (fun _ => "00") (fun _ => .transportError "offline")
        ⟨["ab"], []⟩ "http://example/bottle" "ab" =
      ⟨.ok (blobPath "ab"), ⟨["ab"], []⟩, 0⟩ :=
  download_cached_no_network (fun _ => "00") (fun _ => .transportError "offline")
    ⟨["ab"], []⟩ "http://example/bottle" "ab" (by decide)

/-! ## Filesystem trees and `Cellar::materialize` (`zb_io/src/materialize.rs`) -/

mutual
/-- A filesystem tree as `copy_dir_recursive` observes it: regular files
with contents and a permission mode, symlinks with a target string, and
directories with a mode and named entries. -/
inductive FsTree where
  | file (content : List Nat) (mode : Nat)
  | symlink (target : String)
  | dir (mode : Nat) (entries : FsEntries)

/-- The named entries of a directory, in `read_dir` iteration order. -/
inductive FsEntries where
  | nil
  | cons (name : String) (tree : FsTree) (rest : FsEntries)
end

/-- The mode `fs::create_dir_all` gives a fresh directory (0o755 with the
usual umask); `copy_dir_recursive` never copies a source directory's own
mode. -/
def defaultDirMode : Nat := 493

/-- Result of copying one entry to its destination: the tree created on
success, or an error together with whatever the failed copy left at the
destination (`none` when nothing was created). -/
inductive CopyOutcome where
  | copied (tree : FsTree)
  | failed (err : Error) (leftover : Option FsTree)

mutual
/-- One iteration of the `copy_dir_recursive` loop
(`zb_io/src/materialize.rs:89-121`) for the entry at source path `p`
(segments relative to the store entry).  `fails` is the I/O fault
environment: `fails p = true` makes the primitive operation at `p`
(file copy, symlink creation, directory creation) return an error.  A
failed file or symlink copy is modelled as leaving no destination entry;
a directory is created first and so survives a failure inside it. -/
def copyEntry (fails : List String → Bool) (p : List String) :
    FsTree → CopyOutcome
  | .file content mode =>
      if fails p then .failed (.StoreCorruption "failed to copy file") none
      else .copied (.file content mode)
  | .symlink target =>
      if fails p then .failed (.StoreCorruption "failed to create symlink") none
      else .copied (.symlink target)
  | .dir _ entries =>
      if fails p then .failed (.StoreCorruption "failed to create directory") none
      else
        match copyEntries fails p entries with
        | (.ok _, ts) => .copied (.dir defaultDirMode ts)
        | (.error e, ts) => .failed e (some (.dir defaultDirMode ts))

/-- The entry loop of `copy_dir_recursive`: copy each entry in order,
stopping at the first error; entries copied before the error remain at
the destination. -/
def copyEntries (fails : List String → Bool) (base : List String) :
    FsEntries → Except Error Unit × FsEntries
  | .nil => (.ok (), .nil)
  | .cons name t rest =>
      match copyEntry fails (base ++ [name]) t with
      | .copied t' =>
          let rc := copyEntries fails base rest
          (rc.1, .cons name t' rc.2)
      | .failed e none => (.error e, .nil)
      | .failed e (some t') => (.error e, .cons name t' .nil)
end

/-- The call `copy_dir_recursive(src, dst)` (`zb_io/src/materialize.rs:71-125`) at
the top level: `fs::create_dir_all(dst)` with the default directory mode,
then the entry loop; a non-directory source makes `read_dir` fail after
the destination directory was already created. -/
def copyDirRecursive (fails : List String → Bool) (src : FsTree) : CopyOutcome :=
  match src with
  | .dir _ entries =>
      if fails [] then .failed (.StoreCorruption "failed to create directory") none
      else
        match copyEntries fails [] entries with
        | (.ok _, ts) => .copied (.dir defaultDirMode ts)
        | (.error e, ts) => .failed e (some (.dir defaultDirMode ts))
  | _ =>
      if fails [] then .failed (.StoreCorruption "failed to create directory") none
      else .failed (.StoreCorruption "failed to read directory")
        (some (.dir defaultDirMode .nil))

/-- The cellar: the kegs present on disk, keyed by `(name, version)`. -/
abbrev CellarState := List ((String × String) × FsTree)

/-- The path `Cellar::keg_path` (`zb_io/src/materialize.rs:18-20`) as
segments under the root. -/
def Cellar.kegPath (name version : String) : List String :=
  ["cellar", name, version]

/-- Whether (and with what tree) a keg exists at `cellar/<name>/<version>`. -/
def lookupKeg (st : CellarState) (name version : String) : Option FsTree :=
  match st.find? (fun kv => kv.1.1 == name && kv.1.2 == version) with
  | some kv => some kv.2
  | none => none

/-- The function `Cellar::materialize` (`zb_io/src/materialize.rs:26-49`): return the
keg unchanged if it already exists, otherwise create the parent directory
(modelled as infallible: a failure there creates nothing and is not
relevant to any claim) and run `copy_dir_recursive`.  Note the source
propagates a copy error with no cleanup of the partially created keg. -/
def Cellar.materialize (fails : List String → Bool) (st : CellarState)
    (name version : String) (storeEntry : FsTree) :
    Except Error (List String) × CellarState :=
  match lookupKeg st name version with
  | some _ => (.ok (Cellar.kegPath name version), st)
  | none =>
      match copyDirRecursive fails storeEntry with
      | .copied t => (.ok (Cellar.kegPath name version), ((name, version), t) :: st)
      | .failed e none => (.error e, st)
      | .failed e (some t) => (.error e, ((name, version), t) :: st)

mutual
/-- What a successful copy produces: the same tree with every directory
mode replaced by the freshly-created default. -/
def setDirModes : FsTree → FsTree
  | .file content mode => .file content mode
  | .symlink target => .symlink target
  | .dir _ entries => .dir defaultDirMode (setDirModesEntries entries)

/-- The map of `setDirModes` over directory entries. -/
def setDirModesEntries : FsEntries → FsEntries
  | .nil => .nil
  | .cons name t rest => .cons name (setDirModes t) (setDirModesEntries rest)
end

mutual
theorem copyEntry_ok (fails : List String → Bool) (p : List String)
    (t : FsTree) : ∀ t', copyEntry fails p t = .copied t' → t' = setDirModes t := by
  cases t with
  | file content mode =>
      intro t' h
      by_cases hf : fails p = true <;>
        simp [copyEntry, setDirModes, hf] at h <;> simp [setDirModes, h.symm]
  | symlink target =>
      intro t' h
      by_cases hf : fails p = true <;>
        simp [copyEntry, setDirModes, hf] at h <;> simp [setDirModes, h.symm]
  | dir mode entries =>
      intro t' h
      by_cases hf : fails p = true
      · simp [copyEntry, hf] at h
      · rcases hc : copyEntries fails p entries with ⟨r, ts⟩
        cases r with
        | ok u =>
            have hts := copyEntries_ok fails p entries u ts hc
            simp [copyEntry, hf, hc] at h
            simp [setDirModes, ← h, hts]
        | error e => simp [copyEntry, hf, hc] at h

theorem copyEntries_ok (fails : List String → Bool) (base : List String)
    (es : FsEntries) : ∀ u ts, copyEntries fails base es = (.ok u, ts) →
      ts = setDirModesEntries es := by
  cases es with
  | nil => intro u ts h; simp [copyEntries] at h; simp [setDirModesEntries, h.symm]
  | cons name t rest =>
      intro u ts h
      rcases he : copyEntry fails (base ++ [name]) t with t' | ⟨e, lo⟩
      · have ht' := copyEntry_ok fails (base ++ [name]) t t' he
        rcases hr : copyEntries fails base rest with ⟨r, ts'⟩
        cases r with
        | ok u' =>
            have hts' := copyEntries_ok fails base rest u' ts' hr
            simp [copyEntries, he, hr] at h
            simp [setDirModesEntries, ← h, ht', hts']
        | error e => simp [copyEntries, he, hr] at h
      · cases lo <;> simp [copyEntries, he] at h
end

theorem copyDirRecursive_ok (fails : List String → Bool) (m : Nat)
    (entries : FsEntries) (t' : FsTree)
    (h : copyDirRecursive fails (.dir m entries) = .copied t') :
    t' = .dir defaultDirMode (setDirModesEntries entries) := by
  by_cases hf : fails [] = true
  · simp [copyDirRecursive, hf] at h
  · rcases hc : copyEntries fails [] entries with ⟨r, ts⟩
    cases r with
    | ok u =>
        have hts := copyEntries_ok fails [] entries u ts hc
        simp [copyDirRecursive, hf, hc] at h
        simp [← h, hts]
    | error e => simp [copyDirRecursive, hf, hc] at h

/-- C3 (counterexample): the claim demands that the keg equal the store
entry in the permissions of *every* entry, but `copy_dir_recursive`
creates directories with `fs::create_dir_all` and never copies a source
directory's own mode: materializing a store entry whose root directory
has mode 0o700 yields a keg whose root directory has the default mode
0o755. -/
theorem materialize_dir_mode_not_preserved :
    Cellar.materialize (fun _ => false) [] "foo" "1.0.0"
        (FsTree.dir 448 FsEntries.nil) =
      (.ok (Cellar.kegPath "foo" "1.0.0"),
       [(("foo", "1.0.0"), FsTree.dir 493 FsEntries.nil)]) ∧
    FsTree.dir 493 FsEntries.nil ≠ FsTree.dir 448 FsEntries.nil := by
  refine ⟨rfl, fun h => ?_⟩
  injection h with h1 _
  exact absurd h1 (by decide)

/-- C3 (amended): a materialization that creates a new keg copies the
store entry exactly — same file contents and file permission modes, every
symlink reproduced with an identical target, same directory structure —
except that each directory is created with the default mode rather than
the source directory's own mode. -/
theorem materialize_copies_tree (fails : List String → Bool)
    (st : CellarState) (name version : String) (m : Nat) (entries : FsEntries)
    (p : List String) (st' : CellarState)
    (hnew : lookupKeg st name version = none)
    (h : Cellar.materialize fails st name version (.dir m entries) = (.ok p, st')) :
    p = Cellar.kegPath name version ∧
    st' = ((name, version),
      FsTree.dir defaultDirMode (setDirModesEntries entries)) :: st := by
  rcases hc : copyDirRecursive fails (.dir m entries) with t | ⟨e, lo⟩
  · have ht := copyDirRecursive_ok fails m entries t hc
    simp [Cellar.materialize, hnew, hc] at h
    exact ⟨h.1.symm, by simp [← h.2, ht]⟩
  · cases lo <;> simp [Cellar.materialize, hnew, hc] at h

theorem materialize_copies_tree_witness :
    lookupKeg ([] : CellarState) "foo" "1.2.3" = none ∧
    (Cellar.materialize (fun _ => false) [] "foo" "1.2.3"
        (FsTree.dir 448 (.cons "bin" (.dir 448 (.cons "foo"
          (.file [7, 7] 493) .nil)) (.cons "lib" (.symlink "libfoo.dylib")
          .nil)))).2 =
      [(("foo", "1.2.3"), FsTree.dir defaultDirMode (setDirModesEntries
        (.cons "bin" (.dir 448 (.cons "foo" (.file [7, 7] 493) .nil))
          (.cons "lib" (.symlink "libfoo.dylib") .nil))))] :=
  ⟨rfl, (materialize_copies_tree (fun _ => false) [] "foo" "1.2.3" 448
    (.cons "bin" (.dir 448 (.cons "foo" (.file [7, 7] 493) .nil))
      (.cons "lib" (.symlink "libfoo.dylib") .nil))
    (Cellar.kegPath "foo" "1.2.3") _ rfl rfl).2⟩

/-- C4: the spec requires `materialize` to remove the partial keg when
copying fails, but the source (`zb_io/src/materialize.rs:26-49`)
propagates the `copy_dir_recursive` error with no cleanup: at this
failing input (the file copy at `bin/foo` fails) the call returns
`StoreCorruption` and the partially created keg — the directory skeleton
copied before the failure — remains in the cellar. -/
theorem materialize_failure_leaves_partial_keg :
    Cellar.materialize (fun p => p.length == 2) [] "foo" "1.0.0"
        (FsTree.dir 493 (.cons "bin" (.dir 493 (.cons "foo"
          (.file [7] 493) .nil)) .nil)) =
      (.error (.StoreCorruption "failed to copy file"),
       [(("foo", "1.0.0"),
         FsTree.dir 493 (.cons "bin" (.dir 493 .nil) .nil))]) ∧
    lookupKeg [(("foo", "1.0.0"),
        FsTree.dir 493 (.cons "bin" (.dir 493 .nil) .nil))] "foo" "1.0.0" ≠
      none := by
  exact ⟨rfl, by simp [lookupKeg]⟩

/-- C8: when the keg `cellar/<name>/<version>` already exists,
`materialize` returns its path and leaves the whole cellar — in
particular that keg's contents — unchanged. -/
theorem materialize_existing_keg_noop (fails : List String → Bool)
    (st : CellarState) (name version : String) (storeEntry t : FsTree)
    (hkeg : lookupKeg st name version = some t) :
    Cellar.materialize fails st name version storeEntry =
      (.ok (Cellar.kegPath name version), st) := by
  simp [Cellar.materialize, hkeg]

theorem materialize_existing_keg_noop_witness :
    Cellar.materialize (fun _ => true)
        [(("foo", "1.0.0"), FsTree.dir 493 FsEntries.nil)] "foo" "1.0.0"
        (FsTree.dir 448 (.cons "bin" (.dir 448 .nil) .nil)) =
      (.ok (Cellar.kegPath "foo" "1.0.0"),
       [(("foo", "1.0.0"), FsTree.dir 493 FsEntries.nil)]) :=
  materialize_existing_keg_noop (fun _ => true)
    [(("foo", "1.0.0"), FsTree.dir 493 FsEntries.nil)] "foo" "1.0.0"
    (FsTree.dir 448 (.cons "bin" (.dir 448 .nil) .nil))
    (FsTree.dir 493 FsEntries.nil) rfl

/-! ## `normalize_formula_name` (`zb_cli/src/main.rs:325-342`) -/

/-- Rust's `str::trim` over the character list: drop whitespace from both
ends.  (Rust trims Unicode whitespace; `Char.isWhitespace` covers the
ASCII whitespace relevant to formula names.) -/
def trimChars (l : List Char) : List Char :=
  ((l.dropWhile Char.isWhitespace).reverse.dropWhile Char.isWhitespace).reverse

/-- Rust's `str::rsplit_once(sep)`: split at the last occurrence of `sep`
into (everything before it, everything after it), or `none` when `sep`
does not occur. -/
def rsplitOnce (sep : Char) : List Char → Option (List Char × List Char)
  | [] => none
  | c :: cs =>
      match rsplitOnce sep cs with
      | some pq => some (c :: pq.1, pq.2)
      | none => if c = sep then some ([], cs) else none

/-- The function `normalize_formula_name` (`zb_cli/src/main.rs:325-342`): trim the
input; a name with a last `/` splits into tap and formula — `homebrew/core`
unwraps (empty formula part is `MissingFormula`), any other tap is
`UnsupportedTap`; a slash-free name is returned as trimmed. -/
def normalize_formula_name (name : String) : Except Error String :=
  let t := trimChars name.toList
  match rsplitOnce '/' t with
  | some tapFormula =>
      if tapFormula.1 = "homebrew/core".toList then
        if tapFormula.2 = [] then .error (.MissingFormula (String.mk t))
        else .ok (String.mk tapFormula.2)
      else .error (.UnsupportedTap (String.mk t))
  | none => .ok (String.mk t)

theorem rsplitOnce_eq_none (sep : Char) (l : List Char) (h : sep ∉ l) :
    rsplitOnce sep l = none := by
  induction l with
  | nil => rfl
  | cons c cs ih =>
      rw [List.mem_cons] at h
      push_neg at h
      rw [rsplitOnce, ih h.2, if_neg (fun hc => h.1 hc.symm)]

theorem rsplitOnce_last (a x : List Char) (hx : '/' ∉ x) :
    rsplitOnce '/' (a ++ '/' :: x) = some (a, x) := by
  induction a with
  | nil => simp [rsplitOnce, rsplitOnce_eq_none '/' x hx]
  | cons c a ih => simp [rsplitOnce, ih]

/-- C9 (amended): after trimming surrounding whitespace, a slash-free
name passes through (trimmed, not byte-identical); `homebrew/core/<x>`
with nonempty slash-free `<x>` unwraps to `<x>` (an empty `<x>` is
`MissingFormula`); any other tap prefix fails with `UnsupportedTap`. -/
theorem normalize_formula_name_spec (s : String) :
    (('/' ∉ trimChars s.toList) →
      normalize_formula_name s = .ok (String.mk (trimChars s.toList))) ∧
    (∀ a x, trimChars s.toList = a ++ '/' :: x → '/' ∉ x →
      normalize_formula_name s =
        if a = "homebrew/core".toList then
          if x = [] then .error (.MissingFormula (String.mk (trimChars s.toList)))
          else .ok (String.mk x)
        else .error (.UnsupportedTap (String.mk (trimChars s.toList)))) := by
  constructor
  · intro h
    rw [normalize_formula_name]
    rw [rsplitOnce_eq_none '/' (trimChars s.toList) h]
  · intro a x hdecomp hx
    rw [normalize_formula_name, hdecomp, rsplitOnce_last a x hx]

theorem normalize_formula_name_spec_witness :
    trimChars "homebrew/core/wget".toList =
      "homebrew/core".toList ++ '/' :: "wget".toList ∧
    normalize_formula_name "homebrew/core/wget" =
      .ok (String.mk "wget".toList) := by
  refine ⟨by decide, ?_⟩
  have h := (normalize_formula_name_spec "homebrew/core/wget").2
    "homebrew/core".toList "wget".toList (by decide) (by decide)
  simpa using h

/-- C9 (counterexample): a bare name does not pass through unchanged —
`normalize_formula_name` trims surrounding whitespace first, so the
slash-free input `" wget "` yields `"wget"`, not `" wget "`. -/
theorem normalize_not_identity_on_bare_names :
    normalize_formula_name " wget " = .ok "wget" ∧
    normalize_formula_name " wget " ≠ .ok " wget " := by
  constructor <;> decide

/-! ## The installer (spec-modelled) and `prepare_execution`
(`zb_cli/src/commands/run.rs:11-50`) -/

/-- Modelled from the spec: the formula metadata the resolver consumes
(§3 Formula), reduced to the fields execution reaches — the stable
version, the runtime dependencies, and the store entry its bottle
extracts to (download/extraction are collapsed since `install.rs` is not
in the sources and no claim depends on their internals). -/
structure FormulaMeta where
  version : String
  deps : List String
  storeEntry : FsTree

/-- Modelled from the spec: the installer's state (§4.9, §6) — the
metadata source, the installed table (name, version), the cellar, and
the basenames linked under the shared `bin` directory.  `fuel` bounds
the depth-first traversal of `plan` (the spec's traversal terminates via
its visited set; the bound only makes the model total). -/
structure InstallerState where
  meta : String → Option FormulaMeta
  fuel : Nat
  installed : List (String × String)
  cellar : CellarState
  links : List String

/-- Modelled from the spec (§4.9 Plan): depth-first traversal over the
runtime dependency graph, visited formulas skipped, each formula emitted
after its dependencies (reverse postorder, leaves first). -/
def visitFormula (meta : String → Option FormulaMeta) :
    Nat → String → List (String × String) →
    Except Error (List (String × String))
  | 0, name, _ => .error (.DependencyCycle [name])
  | fuel + 1, name, acc =>
      if acc.any (fun r => r.1 == name) then .ok acc
      else
        match meta name with
        | none => .error (.MissingFormula name)
        | some fm => do
            let acc' ← fm.deps.foldlM (fun a d => visitFormula meta fuel d a) acc
            pure (acc' ++ [(name, fm.version)])

/-- Modelled from the spec: `plan(root_name)` (§4.9). -/
def Installer.plan (st : InstallerState) (name : String) :
    Except Error (List (String × String)) :=
  visitFormula st.meta st.fuel name []

/-- The names of a directory's entries, in order. -/
def entryNames : FsEntries → List String
  | .nil => []
  | .cons n _ rest => n :: entryNames rest

/-- Look up a directory entry by name. -/
def findEntry : FsEntries → String → Option FsTree
  | .nil, _ => none
  | .cons n t rest, q => if n == q then some t else findEntry rest q

/-- The basenames under a keg's `bin` directory (spec §4.8). -/
def binEntryNames (t : FsTree) : List String :=
  match t with
  | .dir _ es =>
      match findEntry es "bin" with
      | some (.dir _ bs) => entryNames bs
      | _ => []
  | _ => []

/-- Modelled from the spec: `link_keg` (§4.8) — one link per basename of
the keg's `bin`, existing basenames skipped (first-install-wins). -/
def linkKeg (st : InstallerState) (name version : String) : InstallerState :=
  match lookupKeg st.cellar name version with
  | some t =>
      { st with links :=
          st.links ++ (binEntryNames t).filter (fun b => !(st.links.contains b)) }
  | none => st

/-- Modelled from the spec (§4.9 Execute, steps 1-3 and 5 for one
formula): skip when the installed table already records this exact
(name, version); otherwise materialize the formula's store entry into
the cellar and append the installed row. -/
def installOne (st : InstallerState) (name version : String) :
    Except Error InstallerState :=
  if st.installed.contains (name, version) then .ok st
  else
    match st.meta name with
    | none => .error (.MissingFormula name)
    | some fm =>
        match Cellar.materialize (fun _ => false) st.cellar name version
            fm.storeEntry with
        | (.ok _, cellar') =>
            .ok { st with
                  cellar := cellar'
                  installed := st.installed ++ [(name, version)] }
        | (.error e, _) => .error e

/-- Modelled from the spec: `execute(plan, do_link)` (§4.9) — install the
plan's formulas in order; link each keg only when `do_link` is true. -/
def Installer.execute (st : InstallerState) (plan : List (String × String))
    (doLink : Bool) : Except Error InstallerState :=
  plan.foldlM (fun s nv => do
      let s' ← installOne s nv.1 nv.2
      if doLink then pure (linkKeg s' nv.1 nv.2) else pure s') st

/-- Modelled from the spec: `is_installed(name)` (§6). -/
def Installer.isInstalled (st : InstallerState) (name : String) : Bool :=
  st.installed.any (fun r => r.1 == name)

/-- Modelled from the spec: `get_installed(name)` (§6), reduced to the
recorded version. -/
def Installer.getInstalled (st : InstallerState) (name : String) :
    Option String :=
  match st.installed.find? (fun r => r.1 == name) with
  | some r => some r.2
  | none => none

/-- Whether `cellar/<name>/<version>/bin/<name>` exists
(`bin_path.exists()` in `run.rs:40`). -/
def binPathExists (st : InstallerState) (name version : String) : Bool :=
  match lookupKeg st.cellar name version with
  | some (.dir _ es) =>
      match findEntry es "bin" with
      | some (.dir _ bs) => (findEntry bs name).isSome
      | _ => false
  | _ => false

/-- The helper `prepare_execution` (`zb_cli/src/commands/run.rs:11-50`): normalize
the name; when not installed, plan and execute with linking disabled;
then resolve the installed version and return the executable path
`cellar/<name>/<version>/bin/<name>` inside the keg. -/
def prepare_execution (st : InstallerState) (formula : String) :
    Except Error (List String × InstallerState) := do
  let normalized ← normalize_formula_name formula
  let wasInstalled := Installer.isInstalled st normalized
  let st' ←
    if wasInstalled then pure st
    else do
      let p ← Installer.plan st normalized
      Installer.execute st p false
  match Installer.getInstalled st' normalized with
  | none => .error (.NotInstalled normalized)
  | some version =>
      if binPathExists st' normalized version then
        .ok (Cellar.kegPath normalized version ++ ["bin", normalized], st')
      else .error (.ExecutionError ("executable not found: " ++ normalized))

theorem installOne_links (s : InstallerState) (name version : String)
    (s' : InstallerState) (h : installOne s name version = .ok s') :
    s'.links = s.links := by
  by_cases hi : (name, version) ∈ s.installed
  · simp [installOne, hi] at h
    rw [← h]
  · rcases hm : s.meta name with _ | fm
    · simp [installOne, hi, hm] at h
    · rcases hc : Cellar.materialize (fun _ => false) s.cellar name version
        fm.storeEntry with ⟨r, cellar'⟩
      cases r with
      | ok p =>
          simp [installOne, hi, hm, hc] at h
          rw [← h]
      | error e => simp [installOne, hi, hm, hc] at h

theorem execute_false_links (plan : List (String × String)) :
    ∀ (st st' : InstallerState), Installer.execute st plan false = .ok st' →
      st'.links = st.links := by
  induction plan with
  | nil =>
      intro st st' h
      simp only [Installer.execute, List.foldlM, pure, Except.pure,
        Except.ok.injEq] at h
      rw [← h]
  | cons nv rest ih =>
      intro st st' h
      rw [Installer.execute, List.foldlM_cons] at h
      rcases h1 : installOne st nv.1 nv.2 with e | s1 <;> rw [h1] at h <;>
        simp only [bind, Except.bind, Bool.false_eq_true, if_false, pure,
          Except.pure] at h
      · exact Except.noConfusion h
      · have h2 : Installer.execute s1 rest false = .ok st' := by
          rw [Installer.execute]; exact h
        rw [ih s1 st' h2, installOne_links st nv.1 nv.2 s1 h1]

/-- C10: running a formula that is not installed installs it with
linking disabled — the shared `bin` gains no link (the link set is
unchanged) — and the returned executable path is
`cellar/<name>/<version>/bin/<name>` inside the keg itself, for the
version recorded by the install. -/
theorem prepare_execution_no_link (st : InstallerState) (formula n : String)
    (p : List String) (st' : InstallerState)
    (hn : normalize_formula_name formula = .ok n)
    (hni : Installer.isInstalled st n = false)
    (h : prepare_execution st formula = .ok (p, st')) :
    st'.links = st.links ∧
    (Installer.getInstalled st' n).isSome = true ∧
    ∀ v, Installer.getInstalled st' n = some v →
      p = Cellar.kegPath n v ++ ["bin", n] := by
  rw [prepare_execution] at h
  rw [hn] at h
  simp only [bind, Except.bind, hni, Bool.false_eq_true, if_false] at h
  rcases hplan : Installer.plan st n with e | pl <;> rw [hplan] at h <;>
    simp only [bind, Except.bind] at h
  · exact Except.noConfusion h
  rcases hex : Installer.execute st pl false with e | st1 <;> rw [hex] at h <;>
    simp only [bind, Except.bind] at h
  · exact Except.noConfusion h
  rcases hgi : Installer.getInstalled st1 n with _ | v <;> rw [hgi] at h
  · exact Except.noConfusion h
  have h' : (if binPathExists st1 n v = true then
      Except.ok (Cellar.kegPath n v ++ ["bin", n], st1)
    else
      Except.error (Error.ExecutionError ("executable not found: " ++ n))) =
      Except.ok (p, st') := h
  by_cases hbin : binPathExists st1 n v = true
  · rw [if_pos hbin] at h'
    simp only [Except.ok.injEq, Prod.mk.injEq] at h'
    obtain ⟨hp, hst⟩ := h'
    rw [← hst]
    refine ⟨execute_false_links pl st st1 hex, by simp [hgi], ?_⟩
    intro v' hv'
    rw [hgi] at hv'
    cases hv'
    exact hp.symm
  · rw [if_neg hbin] at h'
    exact Except.noConfusion h'

def witMeta : String → Option FormulaMeta := fun nm =>
  if nm = "foo" then
    some ⟨"1.0", [],
      .dir 493 (.cons "bin" (.dir 493 (.cons "foo" (.file [7] 493) .nil)) .nil)⟩
  else none

def witState : InstallerState :=
  ⟨witMeta, 4, [], [], ["prev"]⟩

def witFinal : InstallerState :=
  ⟨witMeta, 4, [("foo", "1.0")],
   [(("foo", "1.0"),
     .dir 493 (.cons "bin" (.dir 493 (.cons "foo" (.file [7] 493) .nil)) .nil))],
   ["prev"]⟩

theorem prepare_execution_no_link_witness :
    witFinal.links = witState.links ∧
    (Installer.getInstalled witFinal "foo").isSome = true :=
  ⟨(prepare_execution_no_link witState "foo" "foo"
      (Cellar.kegPath "foo" "1.0" ++ ["bin", "foo"]) witFinal rfl rfl rfl).1,
   (prepare_execution_no_link witState "foo" "foo"
      (Cellar.kegPath "foo" "1.0" ++ ["bin", "foo"]) witFinal rfl rfl rfl).2.1⟩

/-! ## The parallel downloader (`zb_io/src/download.rs:80-181`) as a
small-step transition system

Each spawned task runs `download_with_dedup`; its suspension points cut
the code into atomic segments (the mutex-guarded map accesses, the
semaphore acquire, the GET send, the GET completion together with the
synchronous hash-compare-and-commit that follows it with the in-flight
entry still held, and the broadcast receive).  A `Step` fires one
enabled segment of one task; any interleaving of steps is a behaviour
of the batch. -/

/-- The program counter of one `download_with_dedup` task:
`ready` before the in-flight map lookup (`download.rs:137-149`);
`waiting cid` subscribed to broadcast channel `cid` (`download.rs:151-158`);
`acquiring` holding a fresh map entry, before the semaphore
(`download.rs:161`); `toDownload` holding a permit, before the inner
`Downloader::download`; `getting` with the GET in flight;
`publishing r` finished downloading with result `r`, before the
publish-and-remove (`download.rs:168-177`); `done r` returned. -/
inductive TaskPc where
  | ready
  | waiting (cid : Nat)
  | acquiring
  | toDownload
  | getting
  | publishing (r : Except Error String)
  | done (r : Except Error String)
deriving DecidableEq, Repr

/-- One request of the batch together with its task's control state. -/
structure DlTask where
  url : String
  sha256 : String
  pc : TaskPc
deriving DecidableEq, Repr

/-- A broadcast channel from the in-flight map.  `value` is the
`Result<PathBuf, String>` the winner sends (`none` until then).
`digest` and `winner` are specification bookkeeping — the digest the
channel was created for and the winner's own result — carried for the
statements; no transition reads them. -/
structure Channel where
  digest : String
  value : Option (Except String String)
  winner : Option (Except Error String)
deriving DecidableEq, Repr

/-- The shared state of one `download_all` batch: the tasks, the
in-flight map (digest to channel id), the channels ever created, the
blob cache, the free semaphore permits, and the log of digests for
which a network GET has been issued. -/
structure BatchState where
  tasks : List DlTask
  inflight : String → Option Nat
  channels : List Channel
  cache : CacheState
  permits : Nat
  gets : List String

/-- The value the winner broadcasts (`download.rs:171-174`): the path on
success, `e.to_string()` on failure. -/
def encodeBroadcast : Except Error String → Except String String
  | .ok p => .ok p
  | .error e => .error (errorMessage e)

/-- What a subscriber returns from a received broadcast value
(`download.rs:157`): the path, or the message rewrapped as
`NetworkFailure`. -/
def subscriberResult : Except String String → Except Error String
  | .ok p => .ok p
  | .error m => .error (.NetworkFailure m)

/-- The winner's result as a subscriber observes it: identical on
success; on failure the winner's rendered message wrapped in
`NetworkFailure`. -/
def rewrapWinner : Except Error String → Except Error String
  | .ok p => .ok p
  | .error e => .error (.NetworkFailure (errorMessage e))

/-- The state of `download_all(requests)` at the moment all tasks are spawned
(`download.rs:106-117`): every task ready, no in-flight entries, no
channels, `concurrency` free permits, no GETs issued. -/
def initBatch (requests : List (String × String)) (cache : CacheState)
    (concurrency : Nat) : BatchState where
  tasks := requests.map (fun r => ⟨r.1, r.2, .ready⟩)
  inflight := fun _ => none
  channels := []
  cache := cache
  permits := concurrency
  gets := []

/-- One atomic segment of one task of `download_with_dedup`
(`zb_io/src/download.rs:130-180`), with the inner `Downloader::download`
inlined at `toDownload`/`getting`. -/
inductive Step (hash : List Nat → String) (net : String → HttpReply) :
    BatchState → BatchState → Prop where
  | subscribe (s : BatchState) (i cid : Nat) (t : DlTask)
      (ht : s.tasks.get? i = some t) (hpc : t.pc = .ready)
      (hin : s.inflight t.sha256 = some cid) :
      Step hash net s
        { s with tasks := s.tasks.set i { t with pc := .waiting cid } }
  | register (s : BatchState) (i : Nat) (t : DlTask)
      (ht : s.tasks.get? i = some t) (hpc : t.pc = .ready)
      (hin : s.inflight t.sha256 = none) :
      Step hash net s
        { s with
          tasks := s.tasks.set i { t with pc := .acquiring }
          channels := s.channels ++ [⟨t.sha256, none, none⟩]
          inflight := fun d =>
            if d = t.sha256 then some s.channels.length else s.inflight d }
  | acquire (s : BatchState) (i : Nat) (t : DlTask)
      (ht : s.tasks.get? i = some t) (hpc : t.pc = .acquiring)
      (hp : s.permits ≠ 0) :
      Step hash net s
        { s with
          tasks := s.tasks.set i { t with pc := .toDownload }
          permits := s.permits - 1 }
  | cacheHit (s : BatchState) (i : Nat) (t : DlTask)
      (ht : s.tasks.get? i = some t) (hpc : t.pc = .toDownload)
      (hc : t.sha256 ∈ s.cache.blobs) :
      Step hash net s
        { s with tasks :=
            s.tasks.set i { t with pc := .publishing (.ok (blobPath t.sha256)) } }
  | sendGet (s : BatchState) (i : Nat) (t : DlTask)
      (ht : s.tasks.get? i = some t) (hpc : t.pc = .toDownload)
      (hc : t.sha256 ∉ s.cache.blobs) :
      Step hash net s
        { s with
          tasks := s.tasks.set i { t with pc := .getting }
          gets := s.gets ++ [t.sha256] }
  | finishGet (s : BatchState) (i : Nat) (t : DlTask)
      (r : Except Error String) (c' : CacheState)
      (ht : s.tasks.get? i = some t) (hpc : t.pc = .getting)
      (hfin : finishDownload hash net s.cache t.url t.sha256 = (r, c')) :
      Step hash net s
        { s with
          tasks := s.tasks.set i { t with pc := .publishing r }
          cache := c' }
  | publishFound (s : BatchState) (i cid : Nat) (t : DlTask)
      (r : Except Error String) (ch : Channel)
      (ht : s.tasks.get? i = some t) (hpc : t.pc = .publishing r)
      (hin : s.inflight t.sha256 = some cid)
      (hch : s.channels.get? cid = some ch) :
      Step hash net s
        { s with
          tasks := s.tasks.set i { t with pc := .done r }
          inflight := fun d => if d = t.sha256 then none else s.inflight d
          channels := s.channels.set cid
            { ch with value := some (encodeBroadcast r), winner := some r }
          permits := s.permits + 1 }
  | publishMissing (s : BatchState) (i : Nat) (t : DlTask)
      (r : Except Error String)
      (ht : s.tasks.get? i = some t) (hpc : t.pc = .publishing r)
      (hin : s.inflight t.sha256 = none) :
      Step hash net s
        { s with
          tasks := s.tasks.set i { t with pc := .done r }
          permits := s.permits + 1 }
  | recv (s : BatchState) (i cid : Nat) (t : DlTask) (ch : Channel)
      (v : Except String String)
      (ht : s.tasks.get? i = some t) (hpc : t.pc = .waiting cid)
      (hch : s.channels.get? cid = some ch) (hv : ch.value = some v) :
      Step hash net s
        { s with tasks :=
            s.tasks.set i { t with pc := .done (subscriberResult v) } }

/-- The states a batch can reach by interleaving task segments. -/
def Reach (hash : List Nat → String) (net : String → HttpReply) :
    BatchState → BatchState → Prop :=
  Relation.ReflTransGen (Step hash net)

/-- The winner region: from the map insert to the publish-and-remove,
the task owns the in-flight entry for its digest. -/
def inRegion : TaskPc → Bool
  | .acquiring => true
  | .toDownload => true
  | .getting => true
  | .publishing _ => true
  | _ => false

/-- Whether a task has returned. -/
def TaskPc.isDone : TaskPc → Bool
  | .done _ => true
  | _ => false

/-- How many network GETs have been issued for digest `d` so far. -/
def countGets (s : BatchState) (d : String) : Nat :=
  (s.gets.filter (fun g => g = d)).length

/-- A task's returned value, when it has returned. -/
def taskOutcome (t : DlTask) : Option (Except Error String) :=
  match t.pc with
  | .done r => some r
  | _ => none

/-- The value `download_all` returns once every `handle.await` has been
served, in request order, the first error failing the batch
(`download.rs:119-127`); `none` while some task is still running. -/
def batchResult (s : BatchState) : Option (Except Error (List String)) :=
  (s.tasks.mapM taskOutcome).map (fun rs => rs.mapM id)

/-- The batch is live: some task has not returned. -/
def batchLive (s : BatchState) : Prop :=
  ∃ i t, s.tasks.get? i = some t ∧ t.pc.isDone = false

theorem get?_some_lt {α : Type} {l : List α} {i : Nat} {a : α}
    (h : l.get? i = some a) : i < l.length := by
  by_contra hge
  rw [List.get?_eq_none.mpr (Nat.le_of_not_lt hge)] at h
  cases h

theorem get?_set_self {α : Type} {l : List α} {i : Nat} {a : α} (b : α)
    (h : l.get? i = some a) : (l.set i b).get? i = some b :=
  List.get?_set_eq_of_lt b (get?_some_lt h)

theorem get?_append_some {α : Type} {l : List α} {i : Nat} {a : α}
    (l' : List α) (h : l.get? i = some a) : (l ++ l').get? i = some a := by
  rw [List.get?_append (get?_some_lt h)]; exact h

theorem get?_set_cases {α : Type} {l : List α} {i : Nat} {a : α} (b : α)
    (j : Nat) (h : l.get? i = some a) :
    (l.set i b).get? j = if j = i then some b else l.get? j := by
  by_cases hj : j = i
  · subst hj; rw [if_pos rfl]; exact get?_set_self b h
  · rw [if_neg hj]; exact List.get?_set_ne b l (fun he => hj he.symm)

theorem get?_concat_cases {α : Type} {l : List α} {a : α} {cid : Nat} {ch : α}
    (h : (l ++ [a]).get? cid = some ch) :
    l.get? cid = some ch ∨ (cid = l.length ∧ ch = a) := by
  by_cases hlt : cid < l.length
  · left; rw [List.get?_append hlt] at h; exact h
  · right
    rw [List.get?_append_right (Nat.le_of_not_lt hlt)] at h
    rcases hn : cid - l.length with _ | n
    · rw [hn] at h
      injection h with h
      exact ⟨by omega, h.symm⟩
    · rw [hn] at h
      simp [List.get?] at h

theorem finishDownload_ok {hash : List Nat → String} {net : String → HttpReply}
    {cache : CacheState} {url expected : String} {p : String} {c' : CacheState}
    (h : finishDownload hash net cache url expected = (.ok p, c')) :
    p = blobPath expected ∧ expected ∈ c'.blobs := by
  rcases hn : net url with m | ⟨status, body⟩
  · have h' : ((Except.error (Error.NetworkFailure m) : Except Error String),
        cache) = (Except.ok p, c') := by
      rw [finishDownload, hn] at h; exact h
    exact absurd (congrArg Prod.fst h') (by simp)
  · have h' : (if status < 200 ∨ 300 ≤ status then
        ((Except.error (Error.NetworkFailure ("HTTP " ++ toString status)) :
          Except Error String), cache)
      else if cache.parts.contains expected = true then
        (Except.error
          (Error.NetworkFailure "failed to create blob writer: AlreadyInFlight"),
         cache)
      else if hash body ≠ expected then
        (Except.error (Error.ChecksumMismatch expected (hash body)), cache)
      else (Except.ok (blobPath expected),
        { cache with blobs := expected :: cache.blobs })) =
        (Except.ok p, c') := by
      rw [finishDownload, hn] at h; exact h
    by_cases hs : status < 200 ∨ 300 ≤ status
    · rw [if_pos hs] at h'; exact absurd (congrArg Prod.fst h') (by simp)
    · rw [if_neg hs] at h'
      by_cases hpp : cache.parts.contains expected = true
      · rw [if_pos hpp] at h'; exact absurd (congrArg Prod.fst h') (by simp)
      · rw [if_neg hpp] at h'
        by_cases hm : hash body ≠ expected
        · rw [if_pos hm] at h'; exact absurd (congrArg Prod.fst h') (by simp)
        · rw [if_neg hm] at h'
          have h1 : (Except.ok (blobPath expected) : Except Error String) =
              Except.ok p := congrArg Prod.fst h'
          have h2 : ({ cache with blobs := expected :: cache.blobs } :
              CacheState) = c' := congrArg Prod.snd h'
          refine ⟨?_, ?_⟩
          · injection h1 with h1; exact h1.symm
          · rw [← h2]; exact List.mem_cons_self _ _

theorem finishDownload_blobs_mono {hash : List Nat → String}
    {net : String → HttpReply} {cache : CacheState} {url expected : String}
    {r : Except Error String} {c' : CacheState}
    (h : finishDownload hash net cache url expected = (r, c'))
    {d : String} (hd : d ∈ cache.blobs) : d ∈ c'.blobs := by
  rcases hn : net url with m | ⟨status, body⟩
  · have h' : ((Except.error (Error.NetworkFailure m) : Except Error String),
        cache) = (r, c') := by
      rw [finishDownload, hn] at h; exact h
    have h2 : cache = c' := congrArg Prod.snd h'
    rw [← h2]; exact hd
  · have h' : (if status < 200 ∨ 300 ≤ status then
        ((Except.error (Error.NetworkFailure ("HTTP " ++ toString status)) :
          Except Error String), cache)
      else if cache.parts.contains expected = true then
        (Except.error
          (Error.NetworkFailure "failed to create blob writer: AlreadyInFlight"),
         cache)
      else if hash body ≠ expected then
        (Except.error (Error.ChecksumMismatch expected (hash body)), cache)
      else (Except.ok (blobPath expected),
        { cache with blobs := expected :: cache.blobs })) = (r, c') := by
      rw [finishDownload, hn] at h; exact h
    by_cases hs : status < 200 ∨ 300 ≤ status
    · rw [if_pos hs] at h'
      have h2 : cache = c' := congrArg Prod.snd h'
      rw [← h2]; exact hd
    · rw [if_neg hs] at h'
      by_cases hpp : cache.parts.contains expected = true
      · rw [if_pos hpp] at h'
        have h2 : cache = c' := congrArg Prod.snd h'
        rw [← h2]; exact hd
      · rw [if_neg hpp] at h'
        by_cases hm : hash body ≠ expected
        · rw [if_pos hm] at h'
          have h2 : cache = c' := congrArg Prod.snd h'
          rw [← h2]; exact hd
        · rw [if_neg hm] at h'
          have h2 : ({ cache with blobs := expected :: cache.blobs } :
              CacheState) = c' := congrArg Prod.snd h'
          rw [← h2]
          exact List.mem_cons_of_mem _ hd

/-- The inductive invariant of a batch: (`region`) no two live tasks own
the winner region for the same digest; (`regionInflight`) a task in the
winner region has an in-flight entry for its digest; (`inflightChan`) an
in-flight entry points to a channel created for that digest and not yet
published to; (`chanEnc`) a channel's broadcast value is exactly the
encoding of its winner's result; (`chanOk`) a successful winner's path
is the canonical blob path of the channel's digest; (`waitingChan`) a
subscriber waits on a channel for its own digest; (`pubOk`/`doneOk`) a
task that finished downloading (or returned) successfully holds the
canonical blob path of its own digest. -/
structure Inv (s : BatchState) : Prop where
  region : ∀ i j ti tj, i ≠ j → s.tasks.get? i = some ti →
    s.tasks.get? j = some tj → inRegion ti.pc = true →
    inRegion tj.pc = true → ti.sha256 ≠ tj.sha256
  regionInflight : ∀ i ti, s.tasks.get? i = some ti →
    inRegion ti.pc = true → (s.inflight ti.sha256).isSome = true
  inflightChan : ∀ d cid, s.inflight d = some cid →
    ∃ ch, s.channels.get? cid = some ch ∧ ch.digest = d ∧
      ch.value = none ∧ ch.winner = none
  chanEnc : ∀ cid ch, s.channels.get? cid = some ch →
    ch.value = ch.winner.map encodeBroadcast
  chanOk : ∀ cid ch p, s.channels.get? cid = some ch →
    ch.winner = some (.ok p) → p = blobPath ch.digest
  waitingChan : ∀ i ti cid, s.tasks.get? i = some ti →
    ti.pc = .waiting cid → ∃ ch, s.channels.get? cid = some ch ∧
      ch.digest = ti.sha256
  pubOk : ∀ i ti p, s.tasks.get? i = some ti →
    ti.pc = .publishing (.ok p) → p = blobPath ti.sha256
  doneOk : ∀ i ti p, s.tasks.get? i = some ti →
    ti.pc = .done (.ok p) → p = blobPath ti.sha256

theorem inv_init (reqs : List (String × String)) (cache : CacheState)
    (c : Nat) : Inv (initBatch reqs cache c) := by
  have hready : ∀ i ti, (initBatch reqs cache c).tasks.get? i = some ti →
      ti.pc = .ready := by
    intro i ti h
    rw [initBatch] at h
    simp only [List.get?_map] at h
    rcases hr : reqs.get? i with _ | r <;> rw [hr] at h
    · cases h
    · injection h with h; rw [← h]
  refine ⟨?_, ?_, ?_, ?_, ?_, ?_, ?_, ?_⟩
  · intro i j ti tj _ hti _ hri _
    rw [hready i ti hti] at hri
    simp [inRegion] at hri
  · intro i ti hti hri
    rw [hready i ti hti] at hri
    simp [inRegion] at hri
  · intro d cid h
    simp [initBatch] at h
  · intro cid ch h
    simp [initBatch, List.get?] at h
  · intro cid ch p h
    simp [initBatch, List.get?] at h
  · intro i ti cid hti hw
    rw [hready i ti hti] at hw
    cases hw
  · intro i ti p hti hp
    rw [hready i ti hti] at hp
    cases hp
  · intro i ti p hti hp
    rw [hready i ti hti] at hp
    cases hp

theorem tasks_set_cases {s : BatchState} {i : Nat} {t : DlTask}
    (ht : s.tasks.get? i = some t) (t' : DlTask) {k : Nat} {tk : DlTask}
    (hk : (s.tasks.set i t').get? k = some tk) :
    (k = i ∧ tk = t') ∨ (k ≠ i ∧ s.tasks.get? k = some tk) := by
  rw [get?_set_cases t' k ht] at hk
  by_cases hki : k = i
  · rw [if_pos hki] at hk
    injection hk with hk
    exact Or.inl ⟨hki, hk.symm⟩
  · rw [if_neg hki] at hk
    exact Or.inr ⟨hki, hk⟩

theorem region_set {s : BatchState} (hinv : Inv s) {i : Nat} {t : DlTask}
    (ht : s.tasks.get? i = some t) (newpc : TaskPc)
    (hsafe : inRegion newpc = true → inRegion t.pc = true) :
    ∀ k l tk tl, k ≠ l →
      (s.tasks.set i { t with pc := newpc }).get? k = some tk →
      (s.tasks.set i { t with pc := newpc }).get? l = some tl →
      inRegion tk.pc = true → inRegion tl.pc = true →
      tk.sha256 ≠ tl.sha256 := by
  intro k l tk tl hkl hk hl hrk hrl
  rcases tasks_set_cases ht _ hk with ⟨hki, rfl⟩ | ⟨hki, hk⟩
  · rcases tasks_set_cases ht _ hl with ⟨hli, rfl⟩ | ⟨hli, hl⟩
    · exact absurd (hki.trans hli.symm) hkl
    · show t.sha256 ≠ tl.sha256
      have hil : i ≠ l := fun he => hkl (hki.trans he)
      exact hinv.region i l t tl hil ht hl (hsafe (by exact hrk)) hrl
  · rcases tasks_set_cases ht _ hl with ⟨hli, rfl⟩ | ⟨hli, hl⟩
    · show tk.sha256 ≠ t.sha256
      exact hinv.region k i tk t (fun he => hkl (he.trans hli.symm)) hk ht hrk
        (hsafe (by exact hrl))
    · exact hinv.region k l tk tl hkl hk hl hrk hrl

theorem regionInflight_set {s : BatchState} (hinv : Inv s) {i : Nat}
    {t : DlTask} (ht : s.tasks.get? i = some t) (newpc : TaskPc)
    (hsafe : inRegion newpc = true → inRegion t.pc = true)
    (inflight' : String → Option Nat)
    (hmono : ∀ d, (s.inflight d).isSome = true → (inflight' d).isSome = true) :
    ∀ k tk, (s.tasks.set i { t with pc := newpc }).get? k = some tk →
      inRegion tk.pc = true → (inflight' tk.sha256).isSome = true := by
  intro k tk hk hrk
  rcases tasks_set_cases ht _ hk with ⟨hki, rfl⟩ | ⟨hki, hk⟩
  · exact hmono _ (hinv.regionInflight i t ht (hsafe (by exact hrk)))
  · exact hmono _ (hinv.regionInflight k tk hk hrk)

theorem waitingChan_set {s : BatchState} (hinv : Inv s) {i : Nat} {t : DlTask}
    (ht : s.tasks.get? i = some t) (newpc : TaskPc)
    (hnw : ∀ cid, newpc = .waiting cid →
      ∃ ch, s.channels.get? cid = some ch ∧ ch.digest = t.sha256) :
    ∀ k tk cid, (s.tasks.set i { t with pc := newpc }).get? k = some tk →
      tk.pc = .waiting cid →
      ∃ ch, s.channels.get? cid = some ch ∧ ch.digest = tk.sha256 := by
  intro k tk cid hk hw
  rcases tasks_set_cases ht _ hk with ⟨hki, rfl⟩ | ⟨hki, hk⟩
  · exact hnw cid (by exact hw)
  · exact hinv.waitingChan k tk cid hk hw

theorem pubOk_set {s : BatchState} (hinv : Inv s) {i : Nat} {t : DlTask}
    (ht : s.tasks.get? i = some t) (newpc : TaskPc)
    (hnp : ∀ p, newpc = .publishing (.ok p) → p = blobPath t.sha256) :
    ∀ k tk p, (s.tasks.set i { t with pc := newpc }).get? k = some tk →
      tk.pc = .publishing (.ok p) → p = blobPath tk.sha256 := by
  intro k tk p hk hp
  rcases tasks_set_cases ht _ hk with ⟨hki, rfl⟩ | ⟨hki, hk⟩
  · exact hnp p (by exact hp)
  · exact hinv.pubOk k tk p hk hp

theorem doneOk_set {s : BatchState} (hinv : Inv s) {i : Nat} {t : DlTask}
    (ht : s.tasks.get? i = some t) (newpc : TaskPc)
    (hnd : ∀ p, newpc = .done (.ok p) → p = blobPath t.sha256) :
    ∀ k tk p, (s.tasks.set i { t with pc := newpc }).get? k = some tk →
      tk.pc = .done (.ok p) → p = blobPath tk.sha256 := by
  intro k tk p hk hp
  rcases tasks_set_cases ht _ hk with ⟨hki, rfl⟩ | ⟨hki, hk⟩
  · exact hnd p (by exact hp)
  · exact hinv.doneOk k tk p hk hp

theorem inv_step {hash : List Nat → String} {net : String → HttpReply}
    {s s' : BatchState} (hinv : Inv s) (hs : Step hash net s s') : Inv s' := by
  cases hs with
  | subscribe i cid t ht hpc hin =>
      refine ⟨region_set hinv ht _ (fun h => by simp [inRegion] at h),
        regionInflight_set hinv ht _ (fun h => by simp [inRegion] at h) s.inflight
          (fun _ h => h),
        hinv.inflightChan, hinv.chanEnc, hinv.chanOk,
        waitingChan_set hinv ht _ ?_,
        pubOk_set hinv ht _ (fun p h => nomatch h),
        doneOk_set hinv ht _ (fun p h => nomatch h)⟩
      intro cid' h
      have hcid : cid = cid' := by injection h
      obtain ⟨ch, hch, hd, _, _⟩ := hinv.inflightChan t.sha256 cid hin
      exact ⟨ch, by rw [← hcid]; exact hch, hd⟩
  | register i t ht hpc hin =>
      refine ⟨?_, ?_, ?_, ?_, ?_, ?_,
        pubOk_set hinv ht _ (fun p h => nomatch h),
        doneOk_set hinv ht _ (fun p h => nomatch h)⟩
      · -- region: the new winner's digest cannot collide with any task
        -- already in the winner region, because such a task would imply
        -- an in-flight entry for the digest the register step saw absent
        intro k l tk tl hkl hk hl hrk hrl
        rcases tasks_set_cases ht _ hk with ⟨hki, rfl⟩ | ⟨hki, hk⟩
        · rcases tasks_set_cases ht _ hl with ⟨hli, rfl⟩ | ⟨hli, hl⟩
          · exact absurd (hki.trans hli.symm) hkl
          · show t.sha256 ≠ tl.sha256
            intro heq
            have h1 := hinv.regionInflight l tl hl hrl
            rw [← heq, hin] at h1
            cases h1
        · rcases tasks_set_cases ht _ hl with ⟨hli, rfl⟩ | ⟨hli, hl⟩
          · show tk.sha256 ≠ t.sha256
            intro heq
            have h1 := hinv.regionInflight k tk hk hrk
            rw [heq, hin] at h1
            cases h1
          · exact hinv.region k l tk tl hkl hk hl hrk hrl
      · -- regionInflight: the fresh entry serves the new winner; the
        -- update turns no entry from some to none
        intro k tk hk hrk
        rcases tasks_set_cases ht _ hk with ⟨hki, rfl⟩ | ⟨hki, hk⟩
        · show (if t.sha256 = t.sha256 then some s.channels.length
              else s.inflight t.sha256).isSome = true
          rw [if_pos rfl]
          rfl
        · have hold := hinv.regionInflight k tk hk hrk
          show (if tk.sha256 = t.sha256 then some s.channels.length
              else s.inflight tk.sha256).isSome = true
          by_cases hd : tk.sha256 = t.sha256
          · rw [if_pos hd]; rfl
          · rw [if_neg hd]; exact hold
      · -- inflightChan
        intro d cid hd
        have hd' : (if d = t.sha256 then some s.channels.length
            else s.inflight d) = some cid := hd
        by_cases hdt : d = t.sha256
        · rw [if_pos hdt] at hd'
          injection hd' with hd'
          refine ⟨⟨t.sha256, none, none⟩, ?_, hdt.symm, rfl, rfl⟩
          rw [← hd']
          exact List.get?_concat_length s.channels _
        · rw [if_neg hdt] at hd'
          obtain ⟨ch, hch, hdig, hval, hwin⟩ := hinv.inflightChan d cid hd'
          exact ⟨ch, get?_append_some _ hch, hdig, hval, hwin⟩
      · -- chanEnc
        intro cid ch hch
        rcases get?_concat_cases hch with hch | ⟨_, rfl⟩
        · exact hinv.chanEnc cid ch hch
        · rfl
      · -- chanOk
        intro cid ch p hch hw
        rcases get?_concat_cases hch with hch | ⟨_, rfl⟩
        · exact hinv.chanOk cid ch p hch hw
        · cases hw
      · -- waitingChan
        intro k tk cid hk hw
        rcases tasks_set_cases ht _ hk with ⟨hki, rfl⟩ | ⟨hki, hk⟩
        · cases hw
        · obtain ⟨ch, hch, hd⟩ := hinv.waitingChan k tk cid hk hw
          exact ⟨ch, get?_append_some _ hch, hd⟩
  | acquire i t ht hpc hp =>
      exact ⟨region_set hinv ht _ (fun _ => by rw [hpc]; rfl),
        regionInflight_set hinv ht _ (fun _ => by rw [hpc]; rfl) s.inflight
          (fun _ h => h),
        hinv.inflightChan, hinv.chanEnc, hinv.chanOk,
        waitingChan_set hinv ht _ (fun cid h => nomatch h),
        pubOk_set hinv ht _ (fun p h => nomatch h),
        doneOk_set hinv ht _ (fun p h => nomatch h)⟩
  | cacheHit i t ht hpc hc =>
      refine ⟨region_set hinv ht _ (fun _ => by rw [hpc]; rfl),
        regionInflight_set hinv ht _ (fun _ => by rw [hpc]; rfl) s.inflight
          (fun _ h => h),
        hinv.inflightChan, hinv.chanEnc, hinv.chanOk,
        waitingChan_set hinv ht _ (fun cid h => nomatch h),
        pubOk_set hinv ht _ ?_,
        doneOk_set hinv ht _ (fun p h => nomatch h)⟩
      intro p h
      have h' : Except.ok (ε := Error) (blobPath t.sha256) = .ok p := by
        injection h
      injection h' with h'
      exact h'.symm
  | sendGet i t ht hpc hc =>
      exact ⟨region_set hinv ht _ (fun _ => by rw [hpc]; rfl),
        regionInflight_set hinv ht _ (fun _ => by rw [hpc]; rfl) s.inflight
          (fun _ h => h),
        hinv.inflightChan, hinv.chanEnc, hinv.chanOk,
        waitingChan_set hinv ht _ (fun cid h => nomatch h),
        pubOk_set hinv ht _ (fun p h => nomatch h),
        doneOk_set hinv ht _ (fun p h => nomatch h)⟩
  | finishGet i t r c' ht hpc hfin =>
      refine ⟨region_set hinv ht _ (fun _ => by rw [hpc]; rfl),
        regionInflight_set hinv ht _ (fun _ => by rw [hpc]; rfl) s.inflight
          (fun _ h => h),
        hinv.inflightChan, hinv.chanEnc, hinv.chanOk,
        waitingChan_set hinv ht _ (fun cid h => nomatch h),
        pubOk_set hinv ht _ ?_,
        doneOk_set hinv ht _ (fun p h => nomatch h)⟩
      intro p h
      have h' : r = .ok p := by injection h
      rw [h'] at hfin
      exact (finishDownload_ok hfin).1
  | publishFound i cid t r ch ht hpc hin hch =>
      refine ⟨region_set hinv ht _ (fun h => by simp [inRegion] at h), ?_, ?_, ?_, ?_, ?_,
        pubOk_set hinv ht _ (fun p h => nomatch h),
        doneOk_set hinv ht _ ?_⟩
      · -- regionInflight: the removed entry belonged to the leaving
        -- winner; any other in-region task has a different digest
        intro k tk hk hrk
        rcases tasks_set_cases ht _ hk with ⟨hki, rfl⟩ | ⟨hki, hk⟩
        · simp [inRegion] at hrk
        · have hold := hinv.regionInflight k tk hk hrk
          show (if tk.sha256 = t.sha256 then none
              else s.inflight tk.sha256).isSome = true
          have hd : tk.sha256 ≠ t.sha256 :=
            hinv.region k i tk t hki hk ht hrk (by rw [hpc]; rfl)
          rw [if_neg hd]
          exact hold
      · -- inflightChan: surviving entries are for other digests and
        -- cannot alias the published channel
        intro d cid' hd
        have hd' : (if d = t.sha256 then none else s.inflight d) =
            some cid' := hd
        by_cases hdt : d = t.sha256
        · rw [if_pos hdt] at hd'
          cases hd'
        · rw [if_neg hdt] at hd'
          obtain ⟨ch₂, hch₂, hdig₂, hval₂, hwin₂⟩ :=
            hinv.inflightChan d cid' hd'
          by_cases hcc : cid' = cid
          · rw [hcc, hch] at hch₂
            injection hch₂ with he
            obtain ⟨ch₃, hch₃, hdig₃, _, _⟩ :=
              hinv.inflightChan t.sha256 _ hin
            rw [hch] at hch₃
            injection hch₃ with he₃
            refine absurd ?_ hdt
            rw [← hdig₂, ← he, he₃]
            exact hdig₃
          · refine ⟨ch₂, ?_, hdig₂, hval₂, hwin₂⟩
            rw [get?_set_cases _ cid' hch, if_neg hcc]
            exact hch₂
      · -- chanEnc
        intro cid' ch₂ hch₂
        rw [get?_set_cases _ cid' hch] at hch₂
        by_cases hcc : cid' = cid
        · rw [if_pos hcc] at hch₂
          injection hch₂ with he
          rw [← he]
          rfl
        · rw [if_neg hcc] at hch₂
          exact hinv.chanEnc cid' ch₂ hch₂
      · -- chanOk
        intro cid' ch₂ p hch₂ hw
        rw [get?_set_cases _ cid' hch] at hch₂
        by_cases hcc : cid' = cid
        · rw [if_pos hcc] at hch₂
          injection hch₂ with he
          rw [← he] at hw
          have hw' : some r = some (Except.ok (ε := Error) p) := hw
          injection hw' with hw'
          rw [← he]
          show p = blobPath ch.digest
          obtain ⟨ch₃, hch₃, hdig₃, _, _⟩ :=
            hinv.inflightChan t.sha256 _ hin
          rw [hch] at hch₃
          injection hch₃ with he₃
          rw [he₃, hdig₃]
          exact hinv.pubOk i t p ht (hpc.trans (by rw [hw']))
        · rw [if_neg hcc] at hch₂
          exact hinv.chanOk cid' ch₂ p hch₂ hw
      · -- waitingChan: the published channel keeps its digest
        intro k tk cid₂ hk hw
        rcases tasks_set_cases ht _ hk with ⟨hki, rfl⟩ | ⟨hki, hk⟩
        · cases hw
        · obtain ⟨ch₂, hch₂, hd₂⟩ := hinv.waitingChan k tk cid₂ hk hw
          by_cases hcc : cid₂ = cid
          · rw [hcc, hch] at hch₂
            injection hch₂ with he
            refine ⟨{ ch with
              value := some (encodeBroadcast r)
              winner := some r }, ?_, ?_⟩
            · rw [hcc]
              exact get?_set_self _ hch
            · show ch.digest = tk.sha256
              rw [he]
              exact hd₂
          · refine ⟨ch₂, ?_, hd₂⟩
            rw [get?_set_cases _ cid₂ hch, if_neg hcc]
            exact hch₂
      · -- doneOk for the winner itself
        intro p h
        have h' : r = .ok p := by injection h
        exact hinv.pubOk i t p ht (hpc.trans (by rw [h']))
  | publishMissing i t r ht hpc hin =>
      have h1 := hinv.regionInflight i t ht (by rw [hpc]; rfl)
      rw [hin] at h1
      cases h1
  | recv i cid t ch v ht hpc hch hv =>
      refine ⟨region_set hinv ht _ (fun h => by simp [inRegion] at h),
        regionInflight_set hinv ht _ (fun h => by simp [inRegion] at h) s.inflight
          (fun _ h => h),
        hinv.inflightChan, hinv.chanEnc, hinv.chanOk,
        waitingChan_set hinv ht _ (fun cid' h => nomatch h),
        pubOk_set hinv ht _ (fun p h => nomatch h), ?_⟩
      -- doneOk: a subscriber that returned `ok p` received the value the
      -- winner for its digest published, and that value is the digest's
      -- canonical blob path
      intro k tk p hk hdone
      rcases tasks_set_cases ht _ hk with ⟨hki, rfl⟩ | ⟨hki, hk⟩
      · have hd' : TaskPc.done (subscriberResult v) = .done (.ok p) := hdone
        injection hd' with hd'
        rcases v with mv | pv
        · cases hd'
        · have hpv : pv = p := by injection hd'
          subst hpv
          show pv = blobPath t.sha256
          have henc := hinv.chanEnc cid ch hch
          rw [hv] at henc
          rcases hwin : ch.winner with _ | w
          · rw [hwin] at henc
            cases henc
          · rw [hwin] at henc
            injection henc with henc
            rcases w with e | pw
            · cases henc
            · have hpw : pv = pw := by injection henc
              have hok := hinv.chanOk cid ch pw hch (by rw [hwin])
              obtain ⟨ch₂, hch₂, hd₂⟩ := hinv.waitingChan i t cid ht hpc
              rw [hch] at hch₂
              injection hch₂ with he
              rw [hpw, hok, he, hd₂]
      · exact hinv.doneOk k tk p hk hdone

theorem inv_reach {hash : List Nat → String} {net : String → HttpReply}
    {s0 s : BatchState} (h0 : Inv s0) (h : Reach hash net s0 s) : Inv s := by
  induction h with
  | refl => exact h0
  | tail _ hs ih => exact inv_step ih hs

/-- C2 (amended): the in-flight map serializes GETs per digest — at any
reachable instant no two tasks have a GET in flight for the same digest —
and once a download of a digest has committed its blob, no step issues a
further GET for it.  (A second, sequential GET for a digest can still
occur within one live batch when the earlier winner failed; see the
counterexample.) -/
theorem dedup_no_concurrent_gets :
    (∀ (hash : List Nat → String) (net : String → HttpReply)
      (reqs : List (String × String)) (cache : CacheState) (c : Nat)
      (s : BatchState), Reach hash net (initBatch reqs cache c) s →
      ∀ i j ti tj, i ≠ j → s.tasks.get? i = some ti →
        s.tasks.get? j = some tj → ti.pc = .getting → tj.pc = .getting →
        ti.sha256 ≠ tj.sha256) ∧
    (∀ (hash : List Nat → String) (net : String → HttpReply)
      (s s' : BatchState) (d : String), Step hash net s s' →
      d ∈ s.cache.blobs → countGets s' d = countGets s d) := by
  constructor
  · intro hash net reqs cache c s hreach i j ti tj hij hi hj hgi hgj
    have hinv := inv_reach (inv_init reqs cache c) hreach
    exact hinv.region i j ti tj hij hi hj (by rw [hgi]; rfl) (by rw [hgj]; rfl)
  · intro hash net s s' d hs hd
    cases hs with
    | sendGet i t ht hpc hc =>
        have hne : t.sha256 ≠ d := fun he => hc (he ▸ hd)
        show ((s.gets ++ [t.sha256]).filter (fun g => g = d)).length =
          (s.gets.filter (fun g => g = d)).length
        rw [List.filter_append]
        simp [hne]
    | subscribe i cid t ht hpc hin => rfl
    | register i t ht hpc hin => rfl
    | acquire i t ht hpc hp => rfl
    | cacheHit i t ht hpc hc => rfl
    | finishGet i t r c' ht hpc hfin => rfl
    | publishFound i cid t r ch ht hpc hin hch => rfl
    | publishMissing i t r ht hpc hin => rfl
    | recv i cid t ch v ht hpc hch hv => rfl

def amHash : List Nat → String := fun _ => "dd"

def amNet : String → HttpReply := fun _ => .reply 200 [3]

def g0 : BatchState := initBatch [("u1", "d1"), ("u2", "d2")] ⟨[], []⟩ 2

def g1 : BatchState :=
  { g0 with
    tasks := g0.tasks.set 0 ⟨"u1", "d1", .acquiring⟩
    channels := g0.channels ++ [⟨"d1", none, none⟩]
    inflight := fun d =>
      if d = "d1" then some g0.channels.length else g0.inflight d }

def g2 : BatchState :=
  { g1 with
    tasks := g1.tasks.set 0 ⟨"u1", "d1", .toDownload⟩
    permits := g1.permits - 1 }

def g3 : BatchState :=
  { g2 with
    tasks := g2.tasks.set 0 ⟨"u1", "d1", .getting⟩
    gets := g2.gets ++ ["d1"] }

def g4 : BatchState :=
  { g3 with
    tasks := g3.tasks.set 1 ⟨"u2", "d2", .acquiring⟩
    channels := g3.channels ++ [⟨"d2", none, none⟩]
    inflight := fun d =>
      if d = "d2" then some g3.channels.length else g3.inflight d }

def g5 : BatchState :=
  { g4 with
    tasks := g4.tasks.set 1 ⟨"u2", "d2", .toDownload⟩
    permits := g4.permits - 1 }

def g6 : BatchState :=
  { g5 with
    tasks := g5.tasks.set 1 ⟨"u2", "d2", .getting⟩
    gets := g5.gets ++ ["d2"] }

theorem gReach : Reach amHash amNet g0 g6 := by
  have h1 : Step amHash amNet g0 g1 :=
    Step.register g0 0 ⟨"u1", "d1", .ready⟩ rfl rfl rfl
  have h2 : Step amHash amNet g1 g2 :=
    Step.acquire g1 0 ⟨"u1", "d1", .acquiring⟩ rfl rfl (by decide)
  have h3 : Step amHash amNet g2 g3 :=
    Step.sendGet g2 0 ⟨"u1", "d1", .toDownload⟩ rfl rfl (by decide)
  have h4 : Step amHash amNet g3 g4 :=
    Step.register g3 1 ⟨"u2", "d2", .ready⟩ rfl rfl rfl
  have h5 : Step amHash amNet g4 g5 :=
    Step.acquire g4 1 ⟨"u2", "d2", .acquiring⟩ rfl rfl (by decide)
  have h6 : Step amHash amNet g5 g6 :=
    Step.sendGet g5 1 ⟨"u2", "d2", .toDownload⟩ rfl rfl (by decide)
  exact .tail (.tail (.tail (.tail (.tail (.single h1) h2) h3) h4) h5) h6

def cgwS : BatchState :=
  ⟨[⟨"u", "d", .acquiring⟩], fun _ => none, [], ⟨["aa"], []⟩, 1, ["aa"]⟩

def cgwS' : BatchState :=
  { cgwS with
    tasks := cgwS.tasks.set 0 ⟨"u", "d", .toDownload⟩
    permits := cgwS.permits - 1 }

theorem dedup_no_concurrent_gets_witness :
    ("d1" : String) ≠ "d2" ∧ countGets cgwS' "aa" = countGets cgwS "aa" :=
  ⟨dedup_no_concurrent_gets.1 amHash amNet [("u1", "d1"), ("u2", "d2")]
      ⟨[], []⟩ 2 g6 gReach 0 1 ⟨"u1", "d1", .getting⟩ ⟨"u2", "d2", .getting⟩
      (by decide) rfl rfl rfl rfl,
   dedup_no_concurrent_gets.2 amHash amNet cgwS cgwS' "aa"
      (Step.acquire cgwS 0 ⟨"u", "d", .acquiring⟩ rfl rfl (by decide))
      (by decide)⟩

def cexHash : List Nat → String := fun _ => ""

def cexNet : String → HttpReply := fun _ => .transportError "connection reset"

def x0 : BatchState := initBatch [("u", "d0"), ("u", "d0")] ⟨[], []⟩ 1

def x1 : BatchState :=
  { x0 with
    tasks := x0.tasks.set 0 ⟨"u", "d0", .acquiring⟩
    channels := x0.channels ++ [⟨"d0", none, none⟩]
    inflight := fun d =>
      if d = "d0" then some x0.channels.length else x0.inflight d }

def x2 : BatchState :=
  { x1 with
    tasks := x1.tasks.set 0 ⟨"u", "d0", .toDownload⟩
    permits := x1.permits - 1 }

def x3 : BatchState :=
  { x2 with
    tasks := x2.tasks.set 0 ⟨"u", "d0", .getting⟩
    gets := x2.gets ++ ["d0"] }

def x4 : BatchState :=
  { x3 with
    tasks := x3.tasks.set 0
      ⟨"u", "d0", .publishing (.error (.NetworkFailure "connection reset"))⟩
    cache := x3.cache }

def x5 : BatchState :=
  { x4 with
    tasks := x4.tasks.set 0
      ⟨"u", "d0", .done (.error (.NetworkFailure "connection reset"))⟩
    inflight := fun d => if d = "d0" then none else x4.inflight d
    channels := x4.channels.set 0
      ⟨"d0", some (encodeBroadcast (.error (.NetworkFailure "connection reset"))),
       some (.error (.NetworkFailure "connection reset"))⟩
    permits := x4.permits + 1 }

def x6 : BatchState :=
  { x5 with
    tasks := x5.tasks.set 1 ⟨"u", "d0", .acquiring⟩
    channels := x5.channels ++ [⟨"d0", none, none⟩]
    inflight := fun d =>
      if d = "d0" then some x5.channels.length else x5.inflight d }

def x7 : BatchState :=
  { x6 with
    tasks := x6.tasks.set 1 ⟨"u", "d0", .toDownload⟩
    permits := x6.permits - 1 }

def x8 : BatchState :=
  { x7 with
    tasks := x7.tasks.set 1 ⟨"u", "d0", .getting⟩
    gets := x7.gets ++ ["d0"] }

theorem xReach : Reach cexHash cexNet x0 x8 := by
  have h1 : Step cexHash cexNet x0 x1 :=
    Step.register x0 0 ⟨"u", "d0", .ready⟩ rfl rfl rfl
  have h2 : Step cexHash cexNet x1 x2 :=
    Step.acquire x1 0 ⟨"u", "d0", .acquiring⟩ rfl rfl (by decide)
  have h3 : Step cexHash cexNet x2 x3 :=
    Step.sendGet x2 0 ⟨"u", "d0", .toDownload⟩ rfl rfl (by decide)
  have h4 : Step cexHash cexNet x3 x4 :=
    Step.finishGet x3 0 ⟨"u", "d0", .getting⟩
      (.error (.NetworkFailure "connection reset")) x3.cache rfl rfl rfl
  have h5 : Step cexHash cexNet x4 x5 :=
    Step.publishFound x4 0 0
      ⟨"u", "d0", .publishing (.error (.NetworkFailure "connection reset"))⟩
      (.error (.NetworkFailure "connection reset")) ⟨"d0", none, none⟩
      rfl rfl rfl rfl
  have h6 : Step cexHash cexNet x5 x6 :=
    Step.register x5 1 ⟨"u", "d0", .ready⟩ rfl rfl rfl
  have h7 : Step cexHash cexNet x6 x7 :=
    Step.acquire x6 1 ⟨"u", "d0", .acquiring⟩ rfl rfl (by decide)
  have h8 : Step cexHash cexNet x7 x8 :=
    Step.sendGet x7 1 ⟨"u", "d0", .toDownload⟩ rfl rfl (by decide)
  exact .tail (.tail (.tail (.tail (.tail (.tail (.tail (.single h1) h2) h3)
    h4) h5) h6) h7) h8

/-- C2 (counterexample): "at most one network GET per digest while the
batch is live" fails on the code: in a batch of two requests for digest
`d0` whose download fails, the first task can run to completion (GET,
failure, publish, removal of the in-flight entry) before the second task
performs its map lookup; the second task then registers afresh and
issues a second GET for `d0` while the batch is still live. -/
theorem dedup_failed_winner_regets :
    ¬ (∀ s, Reach cexHash cexNet x0 s → batchLive s →
        ∀ d, countGets s d ≤ 1) := by
  intro hclaim
  have h := hclaim x8 xReach ⟨1, ⟨"u", "d0", .getting⟩, rfl, rfl⟩ "d0"
  rw [show countGets x8 "d0" = 2 from rfl] at h
  omega

/-- C5: the broadcast value a channel carries is exactly the encoding of
its winner's result, so every subscriber of the channel completes with
the winner's outcome: the identical blob path on success, and on failure
`NetworkFailure` carrying the winner's rendered error message — the same
value for every subscriber; moreover a task waiting on the channel has
the channel's digest, so the outcome shared is that of the winner for
the subscriber's own digest. -/
theorem subscriber_gets_winner_outcome (hash : List Nat → String)
    (net : String → HttpReply) (reqs : List (String × String))
    (cache : CacheState) (c : Nat) (s : BatchState)
    (hreach : Reach hash net (initBatch reqs cache c) s)
    (cid : Nat) (ch : Channel) (v : Except String String)
    (w : Except Error String)
    (hch : s.channels.get? cid = some ch) (hv : ch.value = some v)
    (hw : ch.winner = some w) :
    subscriberResult v = rewrapWinner w ∧
    (∀ p, w = .ok p → subscriberResult v = .ok p) ∧
    (∀ e, w = .error e →
      subscriberResult v = .error (.NetworkFailure (errorMessage e))) ∧
    (∀ i ti, s.tasks.get? i = some ti → ti.pc = .waiting cid →
      ch.digest = ti.sha256) := by
  have hinv := inv_reach (inv_init reqs cache c) hreach
  have henc := hinv.chanEnc cid ch hch
  rw [hv, hw] at henc
  injection henc with henc
  subst henc
  refine ⟨?_, ?_, ?_, ?_⟩
  · cases w with
    | ok p => rfl
    | error e => rfl
  · intro p hp
    subst hp
    rfl
  · intro e he
    subst he
    rfl
  · intro i ti hti hw'
    obtain ⟨ch₂, hch₂, hd₂⟩ := hinv.waitingChan i ti cid hti hw'
    rw [hch] at hch₂
    injection hch₂ with he
    rw [he]
    exact hd₂

def w0 : BatchState := initBatch [("u", "dd"), ("u", "dd")] ⟨[], []⟩ 2

def w1 : BatchState :=
  { w0 with
    tasks := w0.tasks.set 0 ⟨"u", "dd", .acquiring⟩
    channels := w0.channels ++ [⟨"dd", none, none⟩]
    inflight := fun d =>
      if d = "dd" then some w0.channels.length else w0.inflight d }

def w2 : BatchState :=
  { w1 with tasks := w1.tasks.set 1 ⟨"u", "dd", .waiting 0⟩ }

def w3 : BatchState :=
  { w2 with
    tasks := w2.tasks.set 0 ⟨"u", "dd", .toDownload⟩
    permits := w2.permits - 1 }

def w4 : BatchState :=
  { w3 with
    tasks := w3.tasks.set 0 ⟨"u", "dd", .getting⟩
    gets := w3.gets ++ ["dd"] }

def w5 : BatchState :=
  { w4 with
    tasks := w4.tasks.set 0 ⟨"u", "dd", .publishing (.ok (blobPath "dd"))⟩
    cache := ⟨["dd"], []⟩ }

def w6 : BatchState :=
  { w5 with
    tasks := w5.tasks.set 0 ⟨"u", "dd", .done (.ok (blobPath "dd"))⟩
    inflight := fun d => if d = "dd" then none else w5.inflight d
    channels := w5.channels.set 0
      ⟨"dd", some (encodeBroadcast (.ok (blobPath "dd"))),
       some (.ok (blobPath "dd"))⟩
    permits := w5.permits + 1 }

def w7 : BatchState :=
  { w6 with
    tasks := w6.tasks.set 1
      ⟨"u", "dd", .done (subscriberResult (.ok (blobPath "dd")))⟩ }

theorem wReach6 : Reach amHash amNet w0 w6 := by
  have h1 : Step amHash amNet w0 w1 :=
    Step.register w0 0 ⟨"u", "dd", .ready⟩ rfl rfl rfl
  have h2 : Step amHash amNet w1 w2 :=
    Step.subscribe w1 1 0 ⟨"u", "dd", .ready⟩ rfl rfl rfl
  have h3 : Step amHash amNet w2 w3 :=
    Step.acquire w2 0 ⟨"u", "dd", .acquiring⟩ rfl rfl (by decide)
  have h4 : Step amHash amNet w3 w4 :=
    Step.sendGet w3 0 ⟨"u", "dd", .toDownload⟩ rfl rfl (by decide)
  have h5 : Step amHash amNet w4 w5 :=
    Step.finishGet w4 0 ⟨"u", "dd", .getting⟩ (.ok (blobPath "dd"))
      ⟨["dd"], []⟩ rfl rfl rfl
  have h6 : Step amHash amNet w5 w6 :=
    Step.publishFound w5 0 0 ⟨"u", "dd", .publishing (.ok (blobPath "dd"))⟩
      (.ok (blobPath "dd")) ⟨"dd", none, none⟩ rfl rfl rfl rfl
  exact .tail (.tail (.tail (.tail (.tail (.single h1) h2) h3) h4) h5) h6

theorem wReach7 : Reach amHash amNet w0 w7 := by
  have h7 : Step amHash amNet w6 w7 :=
    Step.recv w6 1 0 ⟨"u", "dd", .waiting 0⟩
      ⟨"dd", some (encodeBroadcast (.ok (blobPath "dd"))),
       some (.ok (blobPath "dd"))⟩
      (.ok (blobPath "dd")) rfl rfl rfl rfl
  exact .tail wReach6 h7

theorem subscriber_gets_winner_outcome_witness :
    subscriberResult (encodeBroadcast (.ok (blobPath "dd"))) =
      rewrapWinner (.ok (blobPath "dd")) ∧
    ("dd" : String) = "dd" := by
  have h := subscriber_gets_winner_outcome amHash amNet
    [("u", "dd"), ("u", "dd")] ⟨[], []⟩ 2 w6 wReach6 0
    ⟨"dd", some (encodeBroadcast (.ok (blobPath "dd"))),
     some (.ok (blobPath "dd"))⟩
    (encodeBroadcast (.ok (blobPath "dd"))) (.ok (blobPath "dd")) rfl rfl rfl
  exact ⟨h.1, h.2.2.2 1 ⟨"u", "dd", .waiting 0⟩ rfl rfl⟩

/-- Each task keeps the url and digest of the request it was spawned
for, at its request's index. -/
def TasksMatch (reqs : List (String × String)) (s : BatchState) : Prop :=
  s.tasks.length = reqs.length ∧
  ∀ i t, s.tasks.get? i = some t →
    ∃ r, reqs.get? i = some r ∧ t.url = r.1 ∧ t.sha256 = r.2

theorem tasksMatch_init (reqs : List (String × String)) (cache : CacheState)
    (c : Nat) : TasksMatch reqs (initBatch reqs cache c) := by
  constructor
  · exact List.length_map _ _
  · intro i t h
    have h' : (reqs.map (fun r => (⟨r.1, r.2, .ready⟩ : DlTask))).get? i =
        some t := h
    rw [List.get?_map] at h'
    rcases hr : reqs.get? i with _ | r
    · rw [hr] at h'
      cases h'
    · rw [hr] at h'
      injection h' with h'
      exact ⟨r, rfl, by rw [← h'], by rw [← h']⟩

theorem tasksMatch_after_set {reqs : List (String × String)}
    {s : BatchState} (hm : TasksMatch reqs s) {i : Nat} {t : DlTask}
    (ht : s.tasks.get? i = some t) (newpc : TaskPc)
    {s' : BatchState}
    (htasks : s'.tasks = s.tasks.set i { t with pc := newpc }) :
    TasksMatch reqs s' := by
  refine ⟨?_, ?_⟩
  · rw [htasks, List.length_set]
    exact hm.1
  · intro k tk hk
    rw [htasks] at hk
    rcases tasks_set_cases ht _ hk with ⟨hki, rfl⟩ | ⟨hki, hk⟩
    · obtain ⟨r, hr, hu2, hs2⟩ := hm.2 i t ht
      refine ⟨r, ?_, hu2, hs2⟩
      rw [hki]
      exact hr
    · exact hm.2 k tk hk

theorem tasksMatch_step {hash : List Nat → String} {net : String → HttpReply}
    {s s' : BatchState} (hs : Step hash net s s')
    (reqs : List (String × String)) (hm : TasksMatch reqs s) :
    TasksMatch reqs s' := by
  cases hs with
  | subscribe i cid t ht hpc hin => exact tasksMatch_after_set hm ht _ rfl
  | register i t ht hpc hin => exact tasksMatch_after_set hm ht _ rfl
  | acquire i t ht hpc hp => exact tasksMatch_after_set hm ht _ rfl
  | cacheHit i t ht hpc hc => exact tasksMatch_after_set hm ht _ rfl
  | sendGet i t ht hpc hc => exact tasksMatch_after_set hm ht _ rfl
  | finishGet i t r c' ht hpc hfin =>
      exact tasksMatch_after_set hm ht _ rfl
  | publishFound i cid t r ch ht hpc hin hch =>
      exact tasksMatch_after_set hm ht _ rfl
  | publishMissing i t r ht hpc hin =>
      exact tasksMatch_after_set hm ht _ rfl
  | recv i cid t ch v ht hpc hch hv =>
      exact tasksMatch_after_set hm ht _ rfl

theorem tasksMatch_reach {hash : List Nat → String} {net : String → HttpReply}
    {reqs : List (String × String)} {cache : CacheState} {c : Nat}
    {s : BatchState} (h : Reach hash net (initBatch reqs cache c) s) :
    TasksMatch reqs s := by
  induction h with
  | refl => exact tasksMatch_init reqs cache c
  | tail _ hs ih => exact tasksMatch_step hs reqs ih

theorem mapM_option_sound {α β : Type} (f : α → Option β) :
    ∀ (l : List α) (out : List β), l.mapM f = some out →
      out.length = l.length ∧
      ∀ i a, l.get? i = some a → ∃ b, f a = some b ∧ out.get? i = some b := by
  intro l
  induction l with
  | nil =>
      intro out h
      rw [List.mapM_nil] at h
      have h' : some ([] : List β) = some out := h
      injection h' with h'
      subst h'
      exact ⟨rfl, fun i a ha => by cases ha⟩
  | cons a l ih =>
      intro out h
      rw [List.mapM_cons] at h
      rcases hfa : f a with _ | b
      · rw [hfa] at h
        cases h
      · rw [hfa] at h
        rcases hml : l.mapM f with _ | bs
        · rw [hml] at h
          cases h
        · rw [hml] at h
          have h' : some (b :: bs) = some out := h
          injection h' with h'
          subst h'
          obtain ⟨hlen, hidx⟩ := ih bs hml
          refine ⟨by simp [hlen], ?_⟩
          intro i x hx
          cases i with
          | zero =>
              injection hx with hx
              subst hx
              exact ⟨b, hfa, rfl⟩
          | succ n => exact hidx n x hx

theorem mapM_except_sound {ε α : Type} :
    ∀ (l : List (Except ε α)) (out : List α), l.mapM id = .ok out →
      out.length = l.length ∧
      ∀ i x, l.get? i = some x → ∃ v, x = .ok v ∧ out.get? i = some v := by
  intro l
  induction l with
  | nil =>
      intro out h
      rw [List.mapM_nil] at h
      have h' : Except.ok (ε := ε) ([] : List α) = .ok out := h
      injection h' with h'
      subst h'
      exact ⟨rfl, fun i x hx => by cases hx⟩
  | cons x l ih =>
      intro out h
      rw [List.mapM_cons] at h
      rcases hx : x with e | v
      · rw [hx] at h
        cases h
      · rw [hx] at h
        rcases hml : l.mapM (m := Except ε) id with e | vs
        · rw [hml] at h
          cases h
        · rw [hml] at h
          have h' : Except.ok (ε := ε) (v :: vs) = .ok out := h
          injection h' with h'
          subst h'
          obtain ⟨hlen, hidx⟩ := ih vs hml
          refine ⟨by simp [hlen], ?_⟩
          intro i y hy
          cases i with
          | zero =>
              injection hy with hy
              subst hy
              exact ⟨v, rfl, rfl⟩
          | succ n => exact hidx n y hy

theorem mapM_except_error {ε α : Type} :
    ∀ (l : List (Except ε α)) (e : ε), (Except.error e) ∈ l →
      ∀ out, l.mapM id ≠ .ok out := by
  intro l
  induction l with
  | nil =>
      intro e he
      cases he
  | cons x l ih =>
      intro e he out h
      rw [List.mapM_cons] at h
      rcases List.mem_cons.mp he with rfl | he
      · cases h
      · rcases hx : x with e' | v
        · rw [hx] at h
          cases h
        · rw [hx] at h
          rcases hml : l.mapM (m := Except ε) id with e' | vs
          · rw [hml] at h
            cases h
          · exact ih e he vs hml

theorem taskOutcome_done {t : DlTask} {r : Except Error String}
    (h : taskOutcome t = some r) : t.pc = .done r := by
  rcases hpc : t.pc with _ | cid | _ | _ | _ | r' | r' <;>
    rw [taskOutcome, hpc] at h
  · cases h
  · cases h
  · cases h
  · cases h
  · cases h
  · cases h
  · injection h with h
    rw [h]

theorem allDone_mapM (l : List DlTask)
    (hall : ∀ t ∈ l, t.pc.isDone = true) :
    ∃ outs, l.mapM taskOutcome = some outs ∧
      ∀ t ∈ l, ∀ e, t.pc = .done (.error e) → (Except.error e) ∈ outs := by
  induction l with
  | nil => exact ⟨[], by rw [List.mapM_nil]; rfl, fun t ht => by cases ht⟩
  | cons t l ih =>
      have hd := hall t (List.mem_cons_self t l)
      obtain ⟨outs, houts, herr⟩ :=
        ih (fun t' ht' => hall t' (List.mem_cons_of_mem t ht'))
      rcases hpc : t.pc with _ | cid | _ | _ | _ | r | r
      · simp [hpc, TaskPc.isDone] at hd
      · simp [hpc, TaskPc.isDone] at hd
      · simp [hpc, TaskPc.isDone] at hd
      · simp [hpc, TaskPc.isDone] at hd
      · simp [hpc, TaskPc.isDone] at hd
      · simp [hpc, TaskPc.isDone] at hd
      · refine ⟨r :: outs, ?_, ?_⟩
        · rw [List.mapM_cons]
          have hto : taskOutcome t = some r := by simp [taskOutcome, hpc]
          rw [hto, houts]
          rfl
        · intro t' ht' e hpc'
          rcases List.mem_cons.mp ht' with rfl | ht'
          · rw [hpc] at hpc'
            injection hpc' with hpc'
            rw [hpc']
            exact List.mem_cons_self _ _
          · exact List.mem_cons_of_mem _ (herr t' ht' e hpc')

/-- C6: `download_all` collects task results in request order — when the
batch succeeds, the returned vector has one path per request and its
`i`-th entry is the canonical blob path of the `i`-th request's digest;
when some task failed, the batch (all tasks served) returns an error,
never a success vector; and no step of a batch ever removes a blob from
the cache, so blobs already downloaded remain on disk. -/
theorem download_all_order_and_failure :
    (∀ (hash : List Nat → String) (net : String → HttpReply)
      (reqs : List (String × String)) (cache : CacheState) (c : Nat)
      (s : BatchState), Reach hash net (initBatch reqs cache c) s →
      ∀ rs, batchResult s = some (.ok rs) →
        rs.length = reqs.length ∧
        ∀ i r, reqs.get? i = some r → rs.get? i = some (blobPath r.2)) ∧
    (∀ s : BatchState, (∀ t ∈ s.tasks, t.pc.isDone = true) →
      (∃ t ∈ s.tasks, ∃ e, t.pc = .done (.error e)) →
      batchResult s ≠ none ∧ ∀ rs, batchResult s ≠ some (.ok rs)) ∧
    (∀ (hash : List Nat → String) (net : String → HttpReply)
      (s s' : BatchState) (d : String), Step hash net s s' →
      d ∈ s.cache.blobs → d ∈ s'.cache.blobs) := by
  refine ⟨?_, ?_, ?_⟩
  · intro hash net reqs cache c s hreach rs hres
    rcases hmo : s.tasks.mapM taskOutcome with _ | outs
    · rw [batchResult, hmo] at hres
      cases hres
    · rw [batchResult, hmo] at hres
      have hres' : some (outs.mapM id) = some (Except.ok rs) := hres
      injection hres' with hres'
      obtain ⟨hlen1, hidx1⟩ := mapM_option_sound taskOutcome s.tasks outs hmo
      obtain ⟨hlen2, hidx2⟩ := mapM_except_sound outs rs hres'
      obtain ⟨hlen0, hidx0⟩ := tasksMatch_reach hreach
      have hinv := inv_reach (inv_init reqs cache c) hreach
      refine ⟨by rw [hlen2, hlen1, hlen0], ?_⟩
      intro i r hr
      have hilt : i < reqs.length := get?_some_lt hr
      rcases hti : s.tasks.get? i with _ | t
      · rw [List.get?_eq_none] at hti
        omega
      · obtain ⟨r', hr', _, hsha⟩ := hidx0 i t hti
        rw [hr] at hr'
        injection hr' with hr'
        obtain ⟨b, hb, houtb⟩ := hidx1 i t hti
        have hdone := taskOutcome_done hb
        obtain ⟨v, hv, hrsv⟩ := hidx2 i b houtb
        subst hv
        have hblob := hinv.doneOk i t v hti hdone
        rw [hrsv, hblob, hsha, ← hr']
  · intro s hall herr
    obtain ⟨outs, houts, hmem⟩ := allDone_mapM s.tasks hall
    obtain ⟨t, htmem, e, hpc⟩ := herr
    have hemem := hmem t htmem e hpc
    constructor
    · rw [batchResult, houts]
      simp
    · intro rs hcontra
      rw [batchResult, houts] at hcontra
      have hcontra' : some (outs.mapM id) = some (Except.ok rs) := hcontra
      injection hcontra' with hcontra'
      exact mapM_except_error outs e hemem rs hcontra'
  · intro hash net s s' d hs hd
    cases hs with
    | finishGet i t r c' ht hpc hfin => exact finishDownload_blobs_mono hfin hd
    | subscribe i cid t ht hpc hin => exact hd
    | register i t ht hpc hin => exact hd
    | acquire i t ht hpc hp => exact hd
    | cacheHit i t ht hpc hc => exact hd
    | sendGet i t ht hpc hc => exact hd
    | publishFound i cid t r ch ht hpc hin hch => exact hd
    | publishMissing i t r ht hpc hin => exact hd
    | recv i cid t ch v ht hpc hch hv => exact hd

def errS : BatchState :=
  ⟨[⟨"u", "dd", .done (.error (.NetworkFailure "boom"))⟩],
   fun _ => none, [], ⟨[], []⟩, 1, []⟩

theorem download_all_order_and_failure_witness :
    ([blobPath "dd", blobPath "dd"] : List String).get? 1 =
      some (blobPath "dd") ∧
    batchResult errS ≠ some (.ok []) ∧
    "aa" ∈ cgwS'.cache.blobs := by
  refine ⟨?_, ?_, ?_⟩
  · exact (download_all_order_and_failure.1 amHash amNet
      [("u", "dd"), ("u", "dd")] ⟨[], []⟩ 2 w7 wReach7
      [blobPath "dd", blobPath "dd"] rfl).2 1 ("u", "dd") rfl
  · exact (download_all_order_and_failure.2.1 errS (by decide)
      ⟨⟨"u", "dd", .done (.error (.NetworkFailure "boom"))⟩,
       List.mem_cons_self _ _, ⟨.NetworkFailure "boom", rfl⟩⟩).2 []
  · exact download_all_order_and_failure.2.2 amHash amNet cgwS cgwS' "aa"
      (Step.acquire cgwS 0 ⟨"u", "d", .acquiring⟩ rfl rfl (by decide))
      (by decide)

end Zb
